import Mathlib

/-!
Shallow embedding of the configuration front-end in `src/bakefile.rs` of the
`toast` task runner: schema model, task normalization, dependency validation
and environment-variable resolution, together with proofs of the spec claims.

Modelling conventions:
* Rust `HashMap<String, V>` values are represented as association lists
  (`List (String × V)`); the list order stands for the map's unspecified
  iteration order, so properties quantify over all orders.
* `std::env` access in `environment` is modelled by an explicit snapshot
  parameter `String → Option String`.
* YAML text parsing is external (`serde_yaml`); the embedding starts from a
  YAML-like `Value` tree and models the serde-derived deserializers of
  `RawBakefile`, `RawTask` and `Task` (`deny_unknown_fields`, field defaults,
  the untagged enum).  Schema-error message text is serde-internal and is not
  modelled; only acceptance or rejection is.
-/

namespace Toast

/-- Rust `HashMap::contains_key` on the association-list model. -/
def containsKey {α : Type} (m : List (String × α)) (k : String) : Bool :=
  m.any (fun p => p.1 == k)

/-- Rust `HashMap::insert` on the association-list model: replace the value of
an existing key in place, otherwise append the new entry. -/
def hmInsert {α : Type} (m : List (String × α)) (k : String) (v : α) :
    List (String × α) :=
  match m with
  | [] => [(k, v)]
  | (k0, v0) :: rest =>
    if k0 == k then (k, v) :: rest else (k0, v0) :: hmInsert rest k v

/-- Constant `DEFAULT_LOCATION` from `src/bakefile.rs` line 6. -/
def DEFAULT_LOCATION : String := "/scratch"

/-- Constant `DEFAULT_USER` from `src/bakefile.rs` line 9. -/
def DEFAULT_USER : String := "root"

/-- Serde default function `default_task_cache` (`src/bakefile.rs` line 44). -/
def default_task_cache : Bool := true

/-- Serde default function `default_task_location` (line 48). -/
def default_task_location : String := DEFAULT_LOCATION

/-- Serde default function `default_task_user` (line 52). -/
def default_task_user : String := DEFAULT_USER

/-- The `Task` struct (`src/bakefile.rs` lines 12-34).  `env` is a
`HashMap<String, Option<String>>`: a `none` fallback marks a strictly required
environment variable. -/
structure Task where
  dependencies : List String
  cache : Bool
  env : List (String × Option String)
  paths : List String
  location : String
  user : String
  command : Option String
  deriving Repr, DecidableEq

/-- The untagged `RawTask` enum (`src/bakefile.rs` lines 37-42): a task is
written either as a bare command string or as a full record. -/
inductive RawTask where
  | Short (s : String)
  | Long (t : Task)
  deriving Repr, DecidableEq

/-- The `RawBakefile` struct (`src/bakefile.rs` lines 57-63). -/
structure RawBakefile where
  image : String
  default : Option String
  tasks : List (String × RawTask)
  deriving Repr, DecidableEq

/-- The `Bakefile` struct (`src/bakefile.rs` lines 66-72): the canonical
document after normalizing `RawTask`s into `Task`s. -/
structure Bakefile where
  image : String
  default : Option String
  tasks : List (String × Task)
  deriving Repr, DecidableEq

/-- A YAML-like value tree, the input shape handed to the serde
deserializers. -/
inductive Value where
  | str (s : String)
  | bool (b : Bool)
  | null
  | list (items : List Value)
  | map (entries : List (String × Value))

/-- Deserialize a YAML scalar into a Rust `String`. -/
def decodeString (v : Value) : Except String String :=
  match v with
  | .str s => .ok s
  | _ => .error "invalid type: expected a string"

/-- Deserialize a YAML scalar into a Rust `bool`. -/
def decodeBool (v : Value) : Except String Bool :=
  match v with
  | .bool b => .ok b
  | _ => .error "invalid type: expected a boolean"

/-- Deserialize a YAML value into an `Option<String>`: `null` is `None`. -/
def decodeOptString (v : Value) : Except String (Option String) :=
  match v with
  | .null => .ok none
  | .str s => .ok (some s)
  | _ => .error "invalid type: expected a string or null"

/-- Deserialize the elements of a YAML sequence into strings, aborting at the
first malformed element. -/
def decodeStrings : List Value → Except String (List String)
  | [] => .ok []
  | v :: rest =>
    match decodeString v with
    | .ok s => (decodeStrings rest).map (fun ss => s :: ss)
    | .error e => .error e

/-- Deserialize a YAML sequence into a `Vec<String>`. -/
def decodeStringList (v : Value) : Except String (List String) :=
  match v with
  | .list items => decodeStrings items
  | _ => .error "invalid type: expected a sequence"

/-- Deserialize the entries of a YAML mapping into `env` pairs, aborting at
the first malformed value. -/
def decodeEnvEntries :
    List (String × Value) → Except String (List (String × Option String))
  | [] => .ok []
  | p :: rest =>
    match decodeOptString p.2 with
    | .ok ov => (decodeEnvEntries rest).map (fun ps => (p.1, ov) :: ps)
    | .error e => .error e

/-- Deserialize a YAML mapping into the `env` field
(`HashMap<String, Option<String>>`); the map is built by successive
`HashMap::insert`, so a duplicated key keeps the last value. -/
def decodeEnv (v : Value) : Except String (List (String × Option String)) :=
  match v with
  | .map es =>
    (decodeEnvEntries es).map
      (fun pairs => pairs.foldl (fun m q => hmInsert m q.1 q.2) [])
  | _ => .error "invalid type: expected a map"

/-- The recognized field names of `Task`; `deny_unknown_fields` rejects every
other key (`src/bakefile.rs` line 13). -/
def taskFields : List String :=
  ["dependencies", "cache", "env", "paths", "location", "user", "command"]

/-- The recognized top-level field names of `RawBakefile`;
`deny_unknown_fields` rejects every other key (`src/bakefile.rs` line 58). -/
def bakefileFields : List String := ["image", "default", "tasks"]

/-- The serde-derived deserializer of `Task`: a mapping whose keys are
recognized and not duplicated; absent fields take their declared defaults, an
absent `command` is `None`. -/
def Task.deserialize (v : Value) : Except String Task :=
  match v with
  | .map es =>
    if (es.map Prod.fst).Nodup then
      if es.all (fun p => taskFields.contains p.1) then do
        let dependencies ← (match es.lookup "dependencies" with
          | some fv => decodeStringList fv
          | none => pure [])
        let cache ← (match es.lookup "cache" with
          | some fv => decodeBool fv
          | none => pure default_task_cache)
        let env ← (match es.lookup "env" with
          | some fv => decodeEnv fv
          | none => pure [])
        let paths ← (match es.lookup "paths" with
          | some fv => decodeStringList fv
          | none => pure [])
        let location ← (match es.lookup "location" with
          | some fv => decodeString fv
          | none => pure default_task_location)
        let user ← (match es.lookup "user" with
          | some fv => decodeString fv
          | none => pure default_task_user)
        let command ← (match es.lookup "command" with
          | some fv => decodeOptString fv
          | none => pure none)
        pure { dependencies, cache, env, paths, location, user, command }
      else .error "unknown field"
    else .error "duplicate field"
  | _ => .error "invalid type: expected a task record"

/-- The serde deserializer of the untagged enum `RawTask`: the `Short` variant
accepts exactly a string, every other value is tried as a `Long` task
record. -/
def RawTask.deserialize (v : Value) : Except String RawTask :=
  match v with
  | .str s => .ok (.Short s)
  | _ =>
    match Task.deserialize v with
    | .ok t => .ok (.Long t)
    | .error _ => .error "data did not match any variant of untagged enum RawTask"

/-- Deserialize the entries of the `tasks` mapping, aborting at the first
malformed task. -/
def decodeTaskEntries :
    List (String × Value) → Except String (List (String × RawTask))
  | [] => .ok []
  | p :: rest =>
    match RawTask.deserialize p.2 with
    | .ok t => (decodeTaskEntries rest).map (fun ps => (p.1, t) :: ps)
    | .error e => .error e

/-- Deserialize the `tasks` field (`HashMap<String, RawTask>`); the map is
built by successive `HashMap::insert`, so a duplicated key keeps the last
value. -/
def decodeTasks (v : Value) : Except String (List (String × RawTask)) :=
  match v with
  | .map ts =>
    (decodeTaskEntries ts).map
      (fun pairs => pairs.foldl (fun m q => hmInsert m q.1 q.2) [])
  | _ => .error "invalid type: expected a map"

/-- The serde-derived deserializer of `RawBakefile`: a top-level mapping with
recognized, non-duplicated keys; `image` and `tasks` are required, `default`
is optional. -/
def RawBakefile.deserialize (v : Value) : Except String RawBakefile :=
  match v with
  | .map es =>
    if (es.map Prod.fst).Nodup then
      if es.all (fun p => bakefileFields.contains p.1) then do
        let image ← (match es.lookup "image" with
          | some fv => decodeString fv
          | none => Except.error "missing field image")
        let dflt ← (match es.lookup "default" with
          | some fv => decodeOptString fv
          | none => pure none)
        let tasks ← (match es.lookup "tasks" with
          | some fv => decodeTasks fv
          | none => Except.error "missing field tasks")
        pure { image := image, default := dflt, tasks := tasks }
      else .error "unknown field"
    else .error "duplicate field"
  | _ => .error "invalid type: expected a map"

/-- Normalization of one task entry (`src/bakefile.rs` lines 87-98): the
shorthand string becomes the canonical task with every other field at its
default; a full record is used verbatim. -/
def normalizeRawTask : RawTask → Task
  | .Short command =>
    { dependencies := []
      cache := true
      env := []
      paths := []
      location := DEFAULT_LOCATION
      user := DEFAULT_USER
      command := some command }
  | .Long task => task

/-- The normalization step of `parse` (`src/bakefile.rs` lines 78-102):
rebuild the tasks map with every `RawTask` normalized; `image` and `default`
are carried over. -/
def normalizeBakefile (raw : RawBakefile) : Bakefile :=
  { image := raw.image
    default := raw.default
    tasks := raw.tasks.map (fun p => (p.1, normalizeRawTask p.2)) }

/-- Modelled from the spec: `format::series` lives in `src/format.rs`, which
is not among the sources; the spec fixes a stable comma-joined separator
convention for enumerations. -/
def series (items : List String) : String :=
  String.intercalate ", " items

/-- One `violations.entry(task).or_insert_with(|| vec![]).push(dependency)`
step (`src/bakefile.rs` lines 148-151) on the association-list model of the
violations map. -/
def insertViolation (violations : List (String × List String))
    (task dep : String) : List (String × List String) :=
  match violations with
  | [] => [(task, [dep])]
  | (t, deps) :: rest =>
    if t == task then (t, deps ++ [dep]) :: rest
    else (t, deps) :: insertViolation rest task dep

/-- The violation scan of `check_dependencies` (`src/bakefile.rs` lines
141-154): for every task, record each dependency that is not a key of the
tasks map. -/
def scanViolations (bakefile : Bakefile) : List (String × List String) :=
  bakefile.tasks.foldl
    (fun acc p =>
      p.2.dependencies.foldl
        (fun acc2 dep =>
          if containsKey bakefile.tasks dep then acc2
          else insertViolation acc2 p.1 dep)
        acc)
    []

/-- The function `check_dependencies` (`src/bakefile.rs` lines 133-197):
validate the default-task pointer and every dependency, aggregating all
violations into one diagnostic.  `bakefile.default.unwrap()` in the invalid-
default branches is modelled by `Option.getD` (the branch is only reached
when `default` is `some`). -/
def check_dependencies (bakefile : Bakefile) : Except String Unit :=
  let valid_default : Bool :=
    match bakefile.default with
    | none => true
    | some d => containsKey bakefile.tasks d
  let violations := scanViolations bakefile
  if ¬ violations.isEmpty then
    let violations_series := series (violations.map (fun q =>
      "`" ++ q.1 ++ "` (" ++ series (q.2.map (fun d => "`" ++ d ++ "`")) ++ ")"))
    if valid_default then
      .error ("The following tasks have invalid dependencies: " ++
        violations_series ++ ".")
    else
      .error ("The default task `" ++ (bakefile.default.getD "") ++
        "` does not exist, and the following tasks have invalid dependencies: " ++
        violations_series ++ ".")
  else
    if ¬ valid_default then
      .error ("The default task `" ++ (bakefile.default.getD "") ++
        "` does not exist.")
    else
      .ok ()

/-- The function `parse` (`src/bakefile.rs` lines 75-105) after the external
`serde_yaml` step: normalize every task, then check dependencies. -/
def parseRaw (raw : RawBakefile) : Except String Bakefile :=
  let bakefile := normalizeBakefile raw
  match check_dependencies bakefile with
  | .ok _ => .ok bakefile
  | .error e => .error e

/-- The function `parse` (`src/bakefile.rs` lines 75-105) from the YAML value
tree: deserialize the raw model, normalize, check dependencies. -/
def parse (v : Value) : Except String Bakefile :=
  match RawBakefile.deserialize v with
  | .ok raw => parseRaw raw
  | .error e => .error e

/-- One iteration of the loop in `environment` (`src/bakefile.rs` lines
113-123): the accumulator carries the `violations` vector and the `result`
map.  `maybe_var.unwrap_or_else` is `(envSnap p.1).getD dflt`: the live value
always wins over the fallback. -/
def envStep (envSnap : String → Option String)
    (acc : List String × List (String × String)) (p : String × Option String) :
    List String × List (String × String) :=
  match p.2 with
  | some dflt => (acc.1, hmInsert acc.2 p.1 ((envSnap p.1).getD dflt))
  | none =>
    match envSnap p.1 with
    | some v => (acc.1, hmInsert acc.2 p.1 v)
    | none => (acc.1 ++ [p.1], acc.2)

/-- The function `environment` (`src/bakefile.rs` lines 108-130), with the
process environment passed explicitly as a snapshot.  For each declared
variable: a live value always wins; otherwise the fallback is used; a
variable with neither is recorded as a violation; the call fails exactly when
the violations vector is non-empty. -/
def environment (task : Task) (envSnap : String → Option String) :
    Except (List String) (List (String × String)) :=
  let r := task.env.foldl (envStep envSnap) ([], [])
  if ¬ r.1.isEmpty then .error r.1 else .ok r.2

/-! Specification-side definitions used to state the claims. -/

/-- Lookup of a key in the association-list model (the value at the first
occurrence of the key, as in a hash map with unique keys). -/
def hmLookup {α : Type} (m : List (String × α)) (k : String) : Option α :=
  List.lookup k m

/-- Extensional equality of two association-list maps: each agrees with the
other pointwise.  This is Rust `HashMap` equality, which ignores iteration
order. -/
def hmEquiv {α : Type} [DecidableEq α] (m1 m2 : List (String × α)) : Bool :=
  m1.all (fun p => decide (hmLookup m2 p.1 = some p.2)) &&
    m2.all (fun p => decide (hmLookup m1 p.1 = some p.2))

/-- Rust `==` on two `Bakefile` values: field-for-field equality, with
`HashMap` equality (iteration-order independent) on `tasks`. -/
def bakefileEquiv (b1 b2 : Bakefile) : Bool :=
  (b1.image == b2.image) && (b1.default == b2.default) &&
    hmEquiv b1.tasks b2.tasks

/-- Proposition: every dependency of every task names an existing task. -/
def DepsValid (b : Bakefile) : Prop :=
  ∀ p ∈ b.tasks, ∀ d ∈ p.2.dependencies, containsKey b.tasks d = true

/-- Proposition: the default task, if present, names an existing task. -/
def DefaultValid (b : Bakefile) : Prop :=
  ∀ d, b.default = some d → containsKey b.tasks d = true

/-- Boolean form of `DepsValid`. -/
def depsValidB (b : Bakefile) : Bool :=
  b.tasks.all (fun p => p.2.dependencies.all (fun d => containsKey b.tasks d))

/-- Boolean form of `DefaultValid`, exactly the `valid_default` computation of
`check_dependencies`. -/
def defaultValidB (b : Bakefile) : Bool :=
  match b.default with
  | none => true
  | some d => containsKey b.tasks d

/-- The violations map of `check_dependencies` in closed form: every task that
has at least one missing dependency, paired with all of its missing
dependency names in declaration order. -/
def specViolations (b : Bakefile) : List (String × List String) :=
  b.tasks.filterMap (fun p =>
    let missing := p.2.dependencies.filter (fun d => ! containsKey b.tasks d)
    if missing.isEmpty then none else some (p.1, missing))

/-- Rendering of one entry of the violations map inside the diagnostic of
`check_dependencies` (`src/bakefile.rs` lines 161-172). -/
def violationText (q : String × List String) : String :=
  "`" ++ q.1 ++ "` (" ++ series (q.2.map (fun d => "`" ++ d ++ "`")) ++ ")"

/-- Selector for the violation recorded by one `environment` iteration: the
variable name when it has no fallback and no live value, nothing otherwise. -/
def missingPick (envSnap : String → Option String) (p : String × Option String) :
    Option String :=
  match p.2, envSnap p.1 with
  | none, none => some p.1
  | _, _ => none

/-- The names of the declared variables that are strictly required (no
fallback) and absent from the environment snapshot, in declaration order. -/
def requiredMissing (task : Task) (envSnap : String → Option String) :
    List String :=
  task.env.filterMap (missingPick envSnap)

/-- The value `environment` resolves for one declared variable: the live
value when the snapshot defines the name, the declared fallback otherwise
(the empty-string default of `Option.getD` is never reached on success). -/
def resolveVar (envSnap : String → Option String) (p : String × Option String) :
    String :=
  match envSnap p.1 with
  | some v => v
  | none => p.2.getD ""

/-- Detector for an unrecognized key in a task record: the schema of `Task`
is closed by `deny_unknown_fields`. -/
def taskHasUnknownKey (v : Value) : Bool :=
  match v with
  | .map es => es.any (fun p => ! taskFields.contains p.1)
  | _ => false

/-- Detector for an unrecognized key anywhere in the document schema: at the
top level or in any task record (the only two record positions of the
schema; `env` keys are data, not schema fields). -/
def hasUnknownKey (v : Value) : Bool :=
  match v with
  | .map es =>
    es.any (fun p => ! bakefileFields.contains p.1) ||
      (match List.lookup "tasks" es with
       | some (.map ts) => ts.any (fun p => taskHasUnknownKey p.2)
       | _ => false)
  | _ => false

/-! Concrete documents, tasks and snapshots used to instantiate the claims. -/

/-- Builder for concrete task records (every field except the listed ones at
its default). -/
def mkTask (deps : List String) (env : List (String × Option String))
    (command : Option String) : Task :=
  { dependencies := deps, cache := true, env := env, paths := [],
    location := DEFAULT_LOCATION, user := DEFAULT_USER, command := command }

/-- A schema-valid document with one record task depending on one shorthand
task and a valid default. -/
def c1doc : Value :=
  .map [("image", .str "ubuntu:18.04"), ("default", .str "build"),
        ("tasks", .map [("build", .map [("dependencies", .list [.str "prep"])]),
                        ("prep", .str "make prep")])]

/-- The raw model of `c1doc`. -/
def c1raw : RawBakefile :=
  { image := "ubuntu:18.04", default := some "build",
    tasks := [("build", .Long (mkTask ["prep"] [] none)),
              ("prep", .Short "make prep")] }

/-- A task declaring one fallback variable overridden by an empty live value,
one required variable defined live, and one fallback variable left to its
fallback. -/
def c2task : Task :=
  mkTask [] [("A", some "fb"), ("B", none), ("C", some "x")] none

/-- Snapshot defining `A` as the empty string and `B` as `bv`. -/
def c2env : String → Option String :=
  fun n => if n = "A" then some "" else if n = "B" then some "bv" else none

/-- A task declaring two required variables and one fallback variable. -/
def c3task : Task :=
  mkTask [] [("A", none), ("B", some "x"), ("C", none)] none

/-- The empty environment snapshot. -/
def c3env : String → Option String := fun _ => none

/-- A document whose default and one dependency are both invalid. -/
def c5both : Bakefile :=
  { image := "u", default := some "nope", tasks := [("t", mkTask ["x"] [] none)] }

/-- A document whose default alone is invalid. -/
def c5defaultOnly : Bakefile :=
  { image := "u", default := some "nope", tasks := [("t", mkTask [] [] none)] }

/-- A document with one missing dependency and no default. -/
def c5depsOnly : Bakefile :=
  { image := "u", default := none, tasks := [("t", mkTask ["x"] [] none)] }

/-- A document with an unrecognized key inside a task record. -/
def c6doc : Value :=
  .map [("image", .str "u"), ("tasks", .map [("t", .map [("foo", .str "x")])])]

/-- Two offending tasks, listed in one iteration order. -/
def c7raw1 : RawBakefile :=
  { image := "u", default := none,
    tasks := [("t1", .Long (mkTask ["x"] [] none)),
              ("t2", .Long (mkTask ["x"] [] none))] }

/-- The same document as `c7raw1` with the other iteration order. -/
def c7raw2 : RawBakefile :=
  { image := "u", default := none,
    tasks := [("t2", .Long (mkTask ["x"] [] none)),
              ("t1", .Long (mkTask ["x"] [] none))] }

/-- A valid two-task document, in one iteration order. -/
def c7ok1 : RawBakefile :=
  { image := "u", default := some "a",
    tasks := [("a", .Short "x"), ("b", .Short "y")] }

/-- The same document as `c7ok1` with the other iteration order. -/
def c7ok2 : RawBakefile :=
  { image := "u", default := some "a",
    tasks := [("b", .Short "y"), ("a", .Short "x")] }

/-- Every dependency resolves (with duplicates and self-reference), yet the
default names a nonexistent task. -/
def c8raw : RawBakefile :=
  { image := "i", default := some "nope",
    tasks := [("a", .Long (mkTask ["a", "a"] [] (some "x")))] }

/-- Duplicated and self-referential dependencies that all resolve, with a
valid default. -/
def c8ok : RawBakefile :=
  { image := "i", default := some "a",
    tasks := [("a", .Long (mkTask ["a", "a", "b"] [] none)),
              ("b", .Short "cmd")] }

/-- A task declaring one required and one fallback variable. -/
def c9task : Task := mkTask [] [("R", none), ("F", some "fb")] none

/-- The empty environment snapshot. -/
def c9env : String → Option String := fun _ => none

/-- A two-task raw document with a default, used for the frame property. -/
def c10raw : RawBakefile :=
  { image := "img", default := some "go",
    tasks := [("go", .Short "run"), ("lib", .Long (mkTask ["go"] [] none))] }

/-! Basic lemmas about the association-list model. -/

theorem lookup_cons {α : Type} (a k : String) (v : α) (rest : List (String × α)) :
    List.lookup a ((k, v) :: rest) = if a == k then some v else List.lookup a rest := by
  simp only [List.lookup]
  cases h : a == k <;> simp

theorem containsKey_cons {α : Type} (k0 : String) (v0 : α)
    (rest : List (String × α)) (k : String) :
    containsKey ((k0, v0) :: rest) k = ((k0 == k) || containsKey rest k) := by
  simp [containsKey]

theorem containsKey_append {α : Type} (m1 m2 : List (String × α)) (k : String) :
    containsKey (m1 ++ m2) k = (containsKey m1 k || containsKey m2 k) := by
  simp [containsKey, List.any_append]

theorem containsKey_eq_isSome_lookup {α : Type} (m : List (String × α))
    (k : String) : containsKey m k = (List.lookup k m).isSome := by
  induction m with
  | nil => rfl
  | cons p rest ih =>
    obtain ⟨k0, v0⟩ := p
    rw [containsKey_cons, lookup_cons]
    by_cases h : k0 = k
    · subst h; simp
    · have h2 : k ≠ k0 := fun hh => h hh.symm
      simp [h, h2, ih]

theorem containsKey_iff_mem_keys {α : Type} (m : List (String × α)) (k : String) :
    containsKey m k = true ↔ k ∈ m.map Prod.fst := by
  induction m with
  | nil => simp [containsKey]
  | cons p rest ih =>
    obtain ⟨k0, v0⟩ := p
    rw [containsKey_cons]
    by_cases h : k0 = k
    · subst h
      simp
    · have h2 : ¬ k = k0 := fun hh => h hh.symm
      simp [h, h2, ih]

theorem lookup_mem {α : Type} {m : List (String × α)} {k : String} {v : α}
    (h : List.lookup k m = some v) : (k, v) ∈ m := by
  induction m with
  | nil => simp [List.lookup] at h
  | cons p rest ih =>
    obtain ⟨k0, v0⟩ := p
    rw [lookup_cons] at h
    by_cases hk : k = k0
    · subst hk
      simp at h
      simp [h]
    · simp [hk] at h
      exact List.mem_cons_of_mem _ (ih h)

theorem lookup_of_mem_nodup {α : Type} {m : List (String × α)} {k : String}
    {v : α} (hnd : (m.map Prod.fst).Nodup) (h : (k, v) ∈ m) :
    List.lookup k m = some v := by
  induction m with
  | nil => simp at h
  | cons p rest ih =>
    obtain ⟨k0, v0⟩ := p
    simp only [List.map_cons, List.nodup_cons] at hnd
    rw [lookup_cons]
    rcases List.mem_cons.mp h with h1 | h1
    · obtain ⟨rfl, rfl⟩ := Prod.mk.injEq .. ▸ h1
      simp
    · have hk : k ≠ k0 := by
        rintro rfl
        exact hnd.1 (List.mem_map.mpr ⟨(k, v), h1, rfl⟩)
      simp [hk, ih hnd.2 h1]

theorem lookup_map_value {α β : Type} (f : α → β) (m : List (String × α))
    (k : String) :
    List.lookup k (m.map (fun p => (p.1, f p.2))) = (List.lookup k m).map f := by
  induction m with
  | nil => rfl
  | cons p rest ih =>
    obtain ⟨k0, v0⟩ := p
    simp only [List.map_cons]
    rw [lookup_cons, lookup_cons]
    by_cases h : k = k0 <;> simp [h, ih]

theorem hmInsert_of_not_containsKey {α : Type} (m : List (String × α))
    (k : String) (v : α) (h : containsKey m k = false) :
    hmInsert m k v = m ++ [(k, v)] := by
  induction m with
  | nil => rfl
  | cons p rest ih =>
    obtain ⟨k0, v0⟩ := p
    rw [containsKey_cons] at h
    rcases Bool.or_eq_false_iff.mp h with ⟨h1, h2⟩
    simp [hmInsert, h1, ih h2]

theorem keys_hmInsert {α : Type} (m : List (String × α)) (k : String) (v : α) :
    (hmInsert m k v).map Prod.fst =
      if containsKey m k then m.map Prod.fst else m.map Prod.fst ++ [k] := by
  induction m with
  | nil => simp [hmInsert, containsKey]
  | cons p rest ih =>
    obtain ⟨k0, v0⟩ := p
    rw [containsKey_cons]
    cases h : (k0 == k) with
    | true =>
      have : k0 = k := by simpa using h
      subst this
      simp [hmInsert]
    | false =>
      simp [hmInsert, h, ih]
      split <;> simp

theorem not_mem_keys_of_not_containsKey {α : Type} {m : List (String × α)}
    {k : String} (h : containsKey m k = false) : k ∉ m.map Prod.fst := by
  intro hmem
  rw [(containsKey_iff_mem_keys m k).mpr hmem] at h
  simp at h

theorem nodup_keys_hmInsert {α : Type} (m : List (String × α)) (k : String)
    (v : α) (h : (m.map Prod.fst).Nodup) :
    ((hmInsert m k v).map Prod.fst).Nodup := by
  rw [keys_hmInsert]
  split
  · exact h
  · rename_i hc
    have hc2 : containsKey m k = false := by
      cases hcc : containsKey m k
      · rfl
      · exact absurd hcc hc
    simp only [List.nodup_append, List.nodup_singleton]
    exact ⟨h, by simp, by
      intro a ha hb
      simp at hb
      subst hb
      exact not_mem_keys_of_not_containsKey hc2 ha⟩

theorem nodup_keys_foldl_hmInsert {α : Type} (pairs : List (String × α)) :
    ∀ init : List (String × α), (init.map Prod.fst).Nodup →
      ((pairs.foldl (fun m q => hmInsert m q.1 q.2) init).map Prod.fst).Nodup := by
  induction pairs with
  | nil => intro init h; exact h
  | cons q rest ih =>
    intro init h
    exact ih _ (nodup_keys_hmInsert _ _ _ h)

/-! Characterization of `environment`. -/

theorem resolveVar_some (envSnap : String → Option String) (name dflt : String) :
    resolveVar envSnap (name, some dflt) = (envSnap name).getD dflt := by
  cases h : envSnap name <;> simp [resolveVar, h]

theorem envFold_fst (envSnap : String → Option String)
    (l : List (String × Option String)) :
    ∀ acc : List String × List (String × String),
      (l.foldl (envStep envSnap) acc).1 =
        acc.1 ++ l.filterMap (missingPick envSnap) := by
  induction l with
  | nil => intro acc; simp
  | cons p rest ih =>
    intro acc
    rw [List.foldl_cons, ih]
    obtain ⟨name, fb⟩ := p
    cases fb with
    | some dflt => simp [envStep, missingPick]
    | none =>
      cases hv : envSnap name with
      | some v => simp [envStep, missingPick, hv]
      | none => simp [envStep, missingPick, hv]

/-- Selector for the entry one `environment` iteration adds to the result
map: nothing for an unresolvable variable, the resolved value otherwise. -/
def resolvedPick (envSnap : String → Option String)
    (p : String × Option String) : Option (String × String) :=
  match p.2, envSnap p.1 with
  | none, none => none
  | _, _ => some (p.1, resolveVar envSnap p)

theorem envFold_snd (envSnap : String → Option String)
    (l : List (String × Option String)) :
    ∀ acc : List String × List (String × String),
      (l.map Prod.fst).Nodup →
      (∀ k ∈ l.map Prod.fst, containsKey acc.2 k = false) →
      (l.foldl (envStep envSnap) acc).2 =
        acc.2 ++ l.filterMap (resolvedPick envSnap) := by
  induction l with
  | nil => intro acc _ _; simp
  | cons p rest ih =>
    intro acc hnd hdisj
    obtain ⟨name, fb⟩ := p
    simp only [List.map_cons, List.nodup_cons] at hnd
    have hfree : containsKey acc.2 name = false := hdisj name (by simp)
    have hdisj2 : ∀ val : String, ∀ k ∈ rest.map Prod.fst,
        containsKey (acc.2 ++ [(name, val)]) k = false := by
      intro val k hk
      rw [containsKey_append]
      have h1 : containsKey acc.2 k = false := hdisj k (by simp [hk])
      have h2 : (name == k) = false := by
        have : name ≠ k := fun hh => hnd.1 (hh ▸ hk)
        simp [this]
      rw [h1]
      simp [containsKey, h2]
    rw [List.foldl_cons]
    cases fb with
    | some dflt =>
      have hstep : envStep envSnap acc (name, some dflt) =
          (acc.1, acc.2 ++ [(name, (envSnap name).getD dflt)]) := by
        simp [envStep, hmInsert_of_not_containsKey _ _ _ hfree]
      rw [hstep, ih _ hnd.2 (hdisj2 _)]
      simp [resolvedPick, resolveVar_some]
    | none =>
      cases hv : envSnap name with
      | some v =>
        have hstep : envStep envSnap acc (name, none) =
            (acc.1, acc.2 ++ [(name, v)]) := by
          simp [envStep, hv, hmInsert_of_not_containsKey _ _ _ hfree]
        rw [hstep, ih _ hnd.2 (hdisj2 _)]
        simp [resolvedPick, hv, resolveVar]
      | none =>
        have hstep : envStep envSnap acc (name, none) =
            (acc.1 ++ [name], acc.2) := by
          simp [envStep, hv]
        rw [hstep,
          ih (acc.1 ++ [name], acc.2) hnd.2 (fun k hk => hdisj k (by simp [hk]))]
        simp [resolvedPick, hv]

theorem environment_error_iff (task : Task) (envSnap : String → Option String)
    (l : List String) :
    environment task envSnap = .error l ↔
      (requiredMissing task envSnap ≠ [] ∧ l = requiredMissing task envSnap) := by
  have h1 : (task.env.foldl (envStep envSnap) ([], [])).1 =
      requiredMissing task envSnap := by
    rw [envFold_fst]
    simp [requiredMissing]
  simp only [environment]
  rw [h1]
  by_cases hm : requiredMissing task envSnap = []
  · simp [hm]
  · have : (requiredMissing task envSnap).isEmpty = false := by
      simp [List.isEmpty_iff, hm]
    simp [this, hm, eq_comm]

theorem filterMap_resolvedPick_eq_map (envSnap : String → Option String)
    (l : List (String × Option String))
    (h : ∀ p ∈ l, missingPick envSnap p = none) :
    l.filterMap (resolvedPick envSnap) =
      l.map (fun p => (p.1, resolveVar envSnap p)) := by
  induction l with
  | nil => rfl
  | cons p rest ih =>
    have hp := h p (by simp)
    have hr := ih (fun q hq => h q (by simp [hq]))
    obtain ⟨name, fb⟩ := p
    cases fb with
    | some d => simp [resolvedPick, hr]
    | none =>
      cases hv : envSnap name with
      | none => simp [missingPick, hv] at hp
      | some v => simp [resolvedPick, hv, hr]

theorem environment_ok_eq (task : Task) (envSnap : String → Option String)
    (r : List (String × String)) (hnd : (task.env.map Prod.fst).Nodup)
    (h : environment task envSnap = .ok r) :
    requiredMissing task envSnap = [] ∧
      r = task.env.map (fun p => (p.1, resolveVar envSnap p)) := by
  have h1 : (task.env.foldl (envStep envSnap) ([], [])).1 =
      requiredMissing task envSnap := by
    rw [envFold_fst]
    simp [requiredMissing]
  simp only [environment] at h
  rw [h1] at h
  by_cases hm : requiredMissing task envSnap = []
  · refine ⟨hm, ?_⟩
    have hmm : (requiredMissing task envSnap).isEmpty = true := by simp [hm]
    rw [hmm] at h
    simp at h
    subst h
    rw [envFold_snd envSnap task.env ([], []) hnd (by simp [containsKey])]
    have hall : ∀ p ∈ task.env, missingPick envSnap p = none := by
      have := (List.filterMap_eq_nil_iff.mp hm)
      exact this
    rw [filterMap_resolvedPick_eq_map envSnap task.env hall]
    simp
  · have : (requiredMissing task envSnap).isEmpty = false := by
      simp [List.isEmpty_iff, hm]
    rw [this] at h
    simp at h

/-! Characterization of the violation scan of `check_dependencies`. -/

theorem insertViolation_of_fresh (t d : String) :
    ∀ acc : List (String × List String), (∀ q ∈ acc, q.1 ≠ t) →
      insertViolation acc t d = acc ++ [(t, [d])] := by
  intro acc
  induction acc with
  | nil => intro _; rfl
  | cons q rest ih =>
    intro h
    obtain ⟨t0, ds0⟩ := q
    have ht0 : (t0 == t) = false := by
      have := h (t0, ds0) (by simp)
      simpa using this
    simp [insertViolation, ht0, ih (fun q hq => h q (by simp [hq]))]

theorem insertViolation_last (t d : String) (cur : List String) :
    ∀ pre : List (String × List String), (∀ q ∈ pre, q.1 ≠ t) →
      insertViolation (pre ++ [(t, cur)]) t d = pre ++ [(t, cur ++ [d])] := by
  intro pre
  induction pre with
  | nil => intro _; simp [insertViolation]
  | cons q rest ih =>
    intro h
    obtain ⟨t0, ds0⟩ := q
    have ht0 : (t0 == t) = false := by
      have := h (t0, ds0) (by simp)
      simpa using this
    simp only [List.cons_append, insertViolation, ht0, Bool.false_eq_true,
      if_false, List.append_eq]
    rw [ih (fun q hq => h q (by simp [hq]))]

theorem foldl_insertViolation_last (t : String) (deps : List String) :
    ∀ cur : List String, ∀ pre : List (String × List String),
      (∀ q ∈ pre, q.1 ≠ t) →
      deps.foldl (fun a d => insertViolation a t d) (pre ++ [(t, cur)]) =
        pre ++ [(t, cur ++ deps)] := by
  induction deps with
  | nil => intro cur pre _; simp
  | cons d rest ih =>
    intro cur pre hfresh
    rw [List.foldl_cons, insertViolation_last t d cur pre hfresh,
      ih (cur ++ [d]) pre hfresh]
    simp

theorem foldl_insertViolation_fresh (t : String) (deps : List String)
    (acc : List (String × List String)) (h : ∀ q ∈ acc, q.1 ≠ t) :
    deps.foldl (fun a d => insertViolation a t d) acc =
      if deps.isEmpty then acc else acc ++ [(t, deps)] := by
  cases deps with
  | nil => simp
  | cons d rest =>
    rw [List.foldl_cons, insertViolation_of_fresh t d acc h,
      foldl_insertViolation_last t rest [d] acc h]
    simp

theorem foldl_filter_insertViolation (c : String → Bool) (t : String)
    (deps : List String) :
    ∀ acc : List (String × List String),
      deps.foldl (fun a d => if c d then a else insertViolation a t d) acc =
        (deps.filter (fun d => ! c d)).foldl
          (fun a d => insertViolation a t d) acc := by
  induction deps with
  | nil => intro acc; rfl
  | cons d rest ih =>
    intro acc
    cases hc : c d <;> simp [hc, ih]

theorem scan_go (b : Bakefile) (tasks : List (String × Task)) :
    ∀ acc : List (String × List String),
      (tasks.map Prod.fst).Nodup →
      (∀ k ∈ tasks.map Prod.fst, ∀ q ∈ acc, q.1 ≠ k) →
      tasks.foldl
        (fun acc2 p =>
          p.2.dependencies.foldl
            (fun a d =>
              if containsKey b.tasks d then a else insertViolation a p.1 d)
            acc2)
        acc =
      acc ++ tasks.filterMap (fun p =>
        let missing := p.2.dependencies.filter (fun d => ! containsKey b.tasks d)
        if missing.isEmpty then none else some (p.1, missing)) := by
  induction tasks with
  | nil => intro acc _ _; simp
  | cons p rest ih =>
    intro acc hnd hfresh
    obtain ⟨t, task⟩ := p
    simp only [List.map_cons, List.nodup_cons] at hnd
    rw [List.foldl_cons]
    rw [foldl_filter_insertViolation (containsKey b.tasks) t task.dependencies
      acc]
    rw [foldl_insertViolation_fresh t _ acc (hfresh t (by simp))]
    by_cases hm :
        (task.dependencies.filter (fun d => ! containsKey b.tasks d)).isEmpty
    · rw [if_pos hm, ih acc hnd.2 (fun k hk q hq => hfresh k (by simp [hk]) q hq)]
      simp only [List.filterMap_cons]
      rw [hm]
      simp
    · rw [if_neg hm]
      have hfresh2 : ∀ k ∈ rest.map Prod.fst,
          ∀ q ∈ acc ++ [(t, task.dependencies.filter
            (fun d => ! containsKey b.tasks d))], q.1 ≠ k := by
        intro k hk q hq
        rcases List.mem_append.mp hq with hq1 | hq1
        · exact hfresh k (by simp [hk]) q hq1
        · simp at hq1
          subst hq1
          show t ≠ k
          intro hh
          subst hh
          exact hnd.1 hk
      rw [ih _ hnd.2 hfresh2]
      have hmb : (task.dependencies.filter
          (fun d => ! containsKey b.tasks d)).isEmpty = false := by
        cases hcc : (task.dependencies.filter
            (fun d => ! containsKey b.tasks d)).isEmpty
        · rfl
        · exact absurd hcc hm
      simp only [List.filterMap_cons]
      rw [hmb]
      simp

theorem scanViolations_eq_spec (b : Bakefile)
    (hnd : (b.tasks.map Prod.fst).Nodup) :
    scanViolations b = specViolations b := by
  unfold scanViolations specViolations
  rw [scan_go b b.tasks [] hnd (by simp)]
  simp

theorem specViolations_eq_nil_iff (b : Bakefile) :
    specViolations b = [] ↔ DepsValid b := by
  unfold specViolations DepsValid
  rw [List.filterMap_eq_nil_iff]
  constructor
  · intro h p hp d hd
    have := h p hp
    simp only at this
    by_cases hc : containsKey b.tasks d
    · exact hc
    · exfalso
      have hmem : d ∈ p.2.dependencies.filter
          (fun d => ! containsKey b.tasks d) := by
        simp [List.mem_filter, hd, hc]
      have : (p.2.dependencies.filter
          (fun d => ! containsKey b.tasks d)).isEmpty = true := by
        by_contra hne
        simp [hne] at this
      rw [List.isEmpty_iff] at this
      rw [this] at hmem
      simp at hmem
  · intro h p hp
    have hfil : p.2.dependencies.filter (fun d => ! containsKey b.tasks d) = [] := by
      rw [List.filter_eq_nil_iff]
      intro d hd
      simp [h p hp d hd]
    simp [hfil]

/-! Characterization of `check_dependencies` and `parse`. -/

theorem keys_map_value {α β : Type} (f : α → β) (m : List (String × α)) :
    (m.map (fun p => (p.1, f p.2))).map Prod.fst = m.map Prod.fst := by
  induction m with
  | nil => rfl
  | cons p rest ih => simp [ih]

theorem keys_normalizeBakefile (raw : RawBakefile) :
    (normalizeBakefile raw).tasks.map Prod.fst = raw.tasks.map Prod.fst := by
  simp only [normalizeBakefile]
  exact keys_map_value _ _

theorem check_dependencies_eq_ok_branch (b : Bakefile)
    (hv : scanViolations b = []) (hd : defaultValidB b = true) :
    check_dependencies b = .ok () := by
  simp only [check_dependencies]
  rw [hv]
  simp only [defaultValidB] at hd
  simp [hd]

theorem check_dependencies_err_default (b : Bakefile) (d : String)
    (hb : b.default = some d) (hv : scanViolations b = [])
    (hd : containsKey b.tasks d = false) :
    check_dependencies b =
      .error ("The default task `" ++ d ++ "` does not exist.") := by
  simp only [check_dependencies]
  rw [hv, hb]
  simp [hd]

theorem check_dependencies_err_deps (b : Bakefile)
    (hv : scanViolations b ≠ []) (hd : defaultValidB b = true) :
    check_dependencies b =
      .error ("The following tasks have invalid dependencies: " ++
        series ((scanViolations b).map violationText) ++ ".") := by
  have hve : (scanViolations b).isEmpty = false := by
    cases h : (scanViolations b).isEmpty
    · rfl
    · exact absurd (List.isEmpty_iff.mp h) hv
  simp only [defaultValidB] at hd
  simp only [check_dependencies]
  rw [hve]
  simp [hd]
  rfl

theorem check_dependencies_err_both (b : Bakefile) (d : String)
    (hb : b.default = some d) (hv : scanViolations b ≠ [])
    (hd : containsKey b.tasks d = false) :
    check_dependencies b =
      .error ("The default task `" ++ d ++
        "` does not exist, and the following tasks have invalid dependencies: " ++
        series ((scanViolations b).map violationText) ++ ".") := by
  have hve : (scanViolations b).isEmpty = false := by
    cases h : (scanViolations b).isEmpty
    · rfl
    · exact absurd (List.isEmpty_iff.mp h) hv
  simp only [check_dependencies]
  rw [hve, hb]
  simp [hd]
  rfl

theorem check_dependencies_ok_iff (b : Bakefile) :
    check_dependencies b = .ok () ↔
      scanViolations b = [] ∧ defaultValidB b = true := by
  constructor
  · intro h
    by_cases hv : scanViolations b = []
    · by_cases hd : defaultValidB b = true
      · exact ⟨hv, hd⟩
      · exfalso
        cases hbd : b.default with
        | none => exact hd (by simp [defaultValidB, hbd])
        | some d =>
          have hcd : containsKey b.tasks d = false := by
            cases hc : containsKey b.tasks d
            · rfl
            · exact absurd (by simp [defaultValidB, hbd, hc]) hd
          rw [check_dependencies_err_default b d hbd hv hcd] at h
          simp at h
    · exfalso
      by_cases hd : defaultValidB b = true
      · rw [check_dependencies_err_deps b hv hd] at h
        simp at h
      · cases hbd : b.default with
        | none => exact hd (by simp [defaultValidB, hbd])
        | some d =>
          have hcd : containsKey b.tasks d = false := by
            cases hc : containsKey b.tasks d
            · rfl
            · exact absurd (by simp [defaultValidB, hbd, hc]) hd
          rw [check_dependencies_err_both b d hbd hv hcd] at h
          simp at h
  · intro h
    exact check_dependencies_eq_ok_branch b h.1 h.2

theorem parseRaw_ok_elim {raw : RawBakefile} {b : Bakefile}
    (h : parseRaw raw = .ok b) : b = normalizeBakefile raw := by
  simp only [parseRaw] at h
  split at h
  · exact (Except.ok.injEq .. ▸ h :).symm
  · simp at h

theorem parseRaw_ok_iff (raw : RawBakefile) :
    (∃ b, parseRaw raw = .ok b) ↔
      check_dependencies (normalizeBakefile raw) = .ok () := by
  simp only [parseRaw]
  cases h : check_dependencies (normalizeBakefile raw) with
  | ok u => cases u; simp
  | error e => simp

theorem parseRaw_err_of_check {raw : RawBakefile} {e : String}
    (h : check_dependencies (normalizeBakefile raw) = .error e) :
    parseRaw raw = .error e := by
  simp only [parseRaw]
  rw [h]

theorem parse_eq_parseRaw {v : Value} {raw : RawBakefile}
    (h : RawBakefile.deserialize v = .ok raw) : parse v = parseRaw raw := by
  simp only [parse]
  rw [h]

/-! The closed schema: an unrecognized key anywhere in the document schema
makes deserialization fail. -/

theorem taskDeserialize_err_of_unknown {es : List (String × Value)}
    (h : es.any (fun p => ! taskFields.contains p.1) = true) :
    ∃ e, Task.deserialize (.map es) = .error e := by
  have hall : es.all (fun p => taskFields.contains p.1) = false := by
    rcases List.any_eq_true.mp h with ⟨p, hp, hcp⟩
    rw [List.all_eq_false]
    exact ⟨p, hp, by simpa using hcp⟩
  by_cases hnd : (es.map Prod.fst).Nodup
  · refine ⟨"unknown field", ?_⟩
    simp only [Task.deserialize]
    rw [if_pos hnd, if_neg (by rw [hall]; simp)]
  · refine ⟨"duplicate field", ?_⟩
    simp only [Task.deserialize]
    rw [if_neg hnd]

theorem rawTaskDeserialize_err_of_unknown {v : Value}
    (h : taskHasUnknownKey v = true) :
    ∃ e, RawTask.deserialize v = .error e := by
  cases v with
  | map es =>
    have h2 : es.any (fun p => ! taskFields.contains p.1) = true := by
      simpa [taskHasUnknownKey] using h
    obtain ⟨e, he⟩ := taskDeserialize_err_of_unknown h2
    exact ⟨"data did not match any variant of untagged enum RawTask",
      by simp [RawTask.deserialize, he]⟩
  | str s => simp [taskHasUnknownKey] at h
  | bool b => simp [taskHasUnknownKey] at h
  | null => simp [taskHasUnknownKey] at h
  | list items => simp [taskHasUnknownKey] at h

theorem decodeTaskEntries_err_of_mem {ts : List (String × Value)}
    {p : String × Value} (hp : p ∈ ts)
    (he : ∃ e, RawTask.deserialize p.2 = .error e) :
    ∃ e, decodeTaskEntries ts = .error e := by
  induction ts with
  | nil => simp at hp
  | cons q rest ih =>
    rcases List.mem_cons.mp hp with rfl | hp2
    · obtain ⟨e, he2⟩ := he
      exact ⟨e, by simp [decodeTaskEntries, he2]⟩
    · cases hq : RawTask.deserialize q.2 with
      | error e => exact ⟨e, by simp [decodeTaskEntries, hq]⟩
      | ok t =>
        obtain ⟨e, he2⟩ := ih hp2
        exact ⟨e, by simp [decodeTaskEntries, hq, he2, Except.map]⟩

theorem decodeTasks_err_of_mem {ts : List (String × Value)}
    {p : String × Value} (hp : p ∈ ts)
    (he : ∃ e, RawTask.deserialize p.2 = .error e) :
    ∃ e, decodeTasks (.map ts) = .error e := by
  obtain ⟨e, he2⟩ := decodeTaskEntries_err_of_mem hp he
  exact ⟨e, by simp [decodeTasks, he2, Except.map]⟩

theorem rawBakefileDeserialize_err_of_unknown {v : Value}
    (h : hasUnknownKey v = true) :
    ∃ e, RawBakefile.deserialize v = .error e := by
  cases v with
  | str s => simp [hasUnknownKey] at h
  | bool b => simp [hasUnknownKey] at h
  | null => simp [hasUnknownKey] at h
  | list items => simp [hasUnknownKey] at h
  | map es =>
    by_cases hnd : (es.map Prod.fst).Nodup
    case neg =>
      exact ⟨"duplicate field", by simp [RawBakefile.deserialize, hnd]⟩
    simp only [hasUnknownKey, Bool.or_eq_true] at h
    by_cases hall : es.all (fun p => bakefileFields.contains p.1) = true
    case neg =>
      have hall2 : es.all (fun p => bakefileFields.contains p.1) = false := by
        cases hc : es.all (fun p => bakefileFields.contains p.1)
        · rfl
        · exact absurd hc hall
      refine ⟨"unknown field", ?_⟩
      simp only [RawBakefile.deserialize]
      rw [if_pos hnd, if_neg (by rw [hall2]; simp)]
    rcases h with htop | htask
    · exfalso
      rcases List.any_eq_true.mp htop with ⟨p, hp, hcp⟩
      have := List.all_eq_true.mp hall p hp
      simp at hcp
      exact absurd this (by simp [hcp])
    · rcases hlt : List.lookup "tasks" es with _ | tv
      · rw [hlt] at htask
        simp at htask
      · rw [hlt] at htask
        cases tv with
        | map ts =>
          simp only at htask
          rcases List.any_eq_true.mp htask with ⟨p, hp, hcp⟩
          obtain ⟨e, he⟩ :=
            decodeTasks_err_of_mem hp (rawTaskDeserialize_err_of_unknown hcp)
          cases him : List.lookup "image" es with
          | none =>
            refine ⟨"missing field image", ?_⟩
            simp only [RawBakefile.deserialize]
            rw [if_pos hnd, if_pos hall]
            simp [him, bind, Except.bind]
          | some iv =>
            cases hdi : decodeString iv with
            | error e2 =>
              refine ⟨e2, ?_⟩
              simp only [RawBakefile.deserialize]
              rw [if_pos hnd, if_pos hall]
              simp [him, hdi, bind, Except.bind]
            | ok s =>
              cases hdef : List.lookup "default" es with
              | none =>
                refine ⟨e, ?_⟩
                simp only [RawBakefile.deserialize]
                rw [if_pos hnd, if_pos hall]
                simp [him, hdi, hdef, hlt, he, bind, Except.bind, pure,
                  Except.pure, Except.map, Functor.map]
              | some dv =>
                cases hdo : decodeOptString dv with
                | error e2 =>
                  refine ⟨e2, ?_⟩
                  simp only [RawBakefile.deserialize]
                  rw [if_pos hnd, if_pos hall]
                  simp [him, hdi, hdef, hdo, bind, Except.bind]
                | ok od =>
                  refine ⟨e, ?_⟩
                  simp only [RawBakefile.deserialize]
                  rw [if_pos hnd, if_pos hall]
                  simp [him, hdi, hdef, hdo, hlt, he, bind, Except.bind,
                    pure, Except.pure, Except.map, Functor.map]
        | str s2 =>
          simp at htask
        | bool b2 =>
          simp at htask
        | null =>
          simp at htask
        | list its =>
          simp at htask

/-! Map-extensional equality and invariance of validation under it. -/

theorem hmEquiv_symm {α : Type} [DecidableEq α] {m1 m2 : List (String × α)}
    (h : hmEquiv m1 m2 = true) : hmEquiv m2 m1 = true := by
  simp only [hmEquiv, Bool.and_eq_true] at h ⊢
  exact ⟨h.2, h.1⟩

theorem hmEquiv_mem {α : Type} [DecidableEq α] {m1 m2 : List (String × α)}
    (h : hmEquiv m1 m2 = true) {p : String × α} (hp : p ∈ m1) :
    List.lookup p.1 m2 = some p.2 := by
  simp only [hmEquiv, Bool.and_eq_true, List.all_eq_true] at h
  have := h.1 p hp
  simpa [hmLookup] using this

theorem hmEquiv_containsKey {α : Type} [DecidableEq α]
    {m1 m2 : List (String × α)} (h : hmEquiv m1 m2 = true) (k : String) :
    containsKey m1 k = containsKey m2 k := by
  rw [containsKey_eq_isSome_lookup, containsKey_eq_isSome_lookup]
  cases h1 : List.lookup k m1 with
  | some v =>
    have h2 : List.lookup k m2 = some v := hmEquiv_mem h (lookup_mem h1)
    rw [h2]
  | none =>
    cases h2 : List.lookup k m2 with
    | none => rfl
    | some v =>
      have h3 : List.lookup k m1 = some v :=
        hmEquiv_mem (hmEquiv_symm h) (lookup_mem h2)
      rw [h1] at h3
      cases h3

theorem hmEquiv_map_value {α β : Type} [DecidableEq α] [DecidableEq β]
    (f : α → β) {m1 m2 : List (String × α)} (h : hmEquiv m1 m2 = true) :
    hmEquiv (m1.map (fun p => (p.1, f p.2))) (m2.map (fun p => (p.1, f p.2)))
      = true := by
  have key : ∀ (a b : List (String × α)), hmEquiv a b = true →
      ∀ q ∈ a.map (fun p => (p.1, f p.2)),
        List.lookup q.1 (b.map (fun p => (p.1, f p.2))) = some q.2 := by
    intro a b hab q hq
    rcases List.mem_map.mp hq with ⟨p, hp, hpq⟩
    have h1 : List.lookup p.1 b = some p.2 := hmEquiv_mem hab hp
    have h2 : List.lookup p.1 (b.map (fun p => (p.1, f p.2)))
        = some (f p.2) := by
      rw [lookup_map_value, h1]
      rfl
    rw [← hpq]
    exact h2
  simp only [hmEquiv, Bool.and_eq_true, List.all_eq_true]
  constructor
  · intro q hq
    simp only [hmLookup]
    simp [key m1 m2 h q hq]
  · intro q hq
    simp only [hmLookup]
    simp [key m2 m1 (hmEquiv_symm h) q hq]

theorem depsValidB_iff (b : Bakefile) : depsValidB b = true ↔ DepsValid b := by
  simp [depsValidB, DepsValid, List.all_eq_true]

theorem defaultValidB_iff (b : Bakefile) :
    defaultValidB b = true ↔ DefaultValid b := by
  cases h : b.default with
  | none => simp [defaultValidB, DefaultValid, h]
  | some d => simp [defaultValidB, DefaultValid, h]

theorem depsValid_congr {b1 b2 : Bakefile}
    (heq : hmEquiv b1.tasks b2.tasks = true) (h : DepsValid b1) :
    DepsValid b2 := by
  intro p hp d hd
  have h1 : List.lookup p.1 b1.tasks = some p.2 :=
    hmEquiv_mem (hmEquiv_symm heq) hp
  have h2 : (p.1, p.2) ∈ b1.tasks := lookup_mem h1
  have h3 := h (p.1, p.2) h2 d hd
  rw [← hmEquiv_containsKey heq d]
  exact h3

theorem defaultValid_congr {b1 b2 : Bakefile} (hd : b1.default = b2.default)
    (heq : hmEquiv b1.tasks b2.tasks = true) (h : DefaultValid b1) :
    DefaultValid b2 := by
  intro d hd2
  rw [← hmEquiv_containsKey heq d]
  exact h d (by rw [hd, hd2])

/-! Remaining helper lemmas. -/

theorem keys_map_pair {α β : Type} (g : String × α → β)
    (m : List (String × α)) :
    (m.map (fun p => (p.1, g p))).map Prod.fst = m.map Prod.fst := by
  induction m with
  | nil => rfl
  | cons p rest ih => simp [ih]

theorem lookup_map_pair {α β : Type} (g : String × α → β)
    {m : List (String × α)} (hnd : (m.map Prod.fst).Nodup)
    {k : String} {v : α} (hmem : (k, v) ∈ m) :
    List.lookup k (m.map (fun p => (p.1, g p))) = some (g (k, v)) := by
  have h1 : (k, g (k, v)) ∈ m.map (fun p => (p.1, g p)) :=
    List.mem_map.mpr ⟨(k, v), hmem, rfl⟩
  have h2 : ((m.map (fun p => (p.1, g p))).map Prod.fst).Nodup := by
    rw [keys_map_pair]
    exact hnd
  exact lookup_of_mem_nodup h2 h1

/-! The claims. -/

/-- C1: for every document that is schema-valid (deserializes into the raw
model), `parse` returns a `Bakefile` exactly when every name in every task's
dependency list is a key of the tasks map and the default task, if present,
is a key of the tasks map; otherwise `parse` returns a diagnostic and no
`Bakefile`.  The `Nodup` hypothesis is the key-uniqueness invariant of the
raw model's `HashMap`. -/
theorem parse_ok_iff_references_valid (v : Value) (raw : RawBakefile)
    (hde : RawBakefile.deserialize v = .ok raw)
    (hnd : (raw.tasks.map Prod.fst).Nodup) :
    ((∃ b, parse v = .ok b) ↔
      (DepsValid (normalizeBakefile raw) ∧ DefaultValid (normalizeBakefile raw))) ∧
    ((¬ (DepsValid (normalizeBakefile raw) ∧
        DefaultValid (normalizeBakefile raw))) →
      ∃ e, parse v = .error e) := by
  have hndn : ((normalizeBakefile raw).tasks.map Prod.fst).Nodup := by
    rw [keys_normalizeBakefile]
    exact hnd
  have hiff : (∃ b, parse v = .ok b) ↔
      (DepsValid (normalizeBakefile raw) ∧
        DefaultValid (normalizeBakefile raw)) := by
    rw [parse_eq_parseRaw hde, parseRaw_ok_iff, check_dependencies_ok_iff,
      scanViolations_eq_spec _ hndn, specViolations_eq_nil_iff,
      defaultValidB_iff]
  refine ⟨hiff, ?_⟩
  intro hcond
  cases hp : parse v with
  | ok b => exact absurd (hiff.mp ⟨b, hp⟩) hcond
  | error e => exact ⟨e, rfl⟩

theorem parse_ok_iff_references_valid_witness :
    RawBakefile.deserialize c1doc = .ok c1raw ∧ (∃ b, parse c1doc = .ok b) := by
  have h := parse_ok_iff_references_valid c1doc c1raw (by rfl) (by decide)
  exact ⟨by rfl, h.1.mpr ⟨(depsValidB_iff _).mp (by rfl),
    (defaultValidB_iff _).mp (by rfl)⟩⟩

/-- C2: when environment resolution succeeds, the result map has exactly the
declared variables as keys (one entry per declared variable), and each value
is the live environment value when the snapshot defines the name — even when
a fallback is also declared, and even when the live value is the empty
string — and the declared fallback otherwise. -/
theorem environment_ok_exact (task : Task)
    (envSnap : String → Option String) (r : List (String × String))
    (hnd : (task.env.map Prod.fst).Nodup)
    (hok : environment task envSnap = .ok r) :
    r.map Prod.fst = task.env.map Prod.fst ∧
    (∀ name fb, (name, fb) ∈ task.env →
      (∀ v, envSnap name = some v → List.lookup name r = some v) ∧
      (envSnap name = none → ∀ f0, fb = some f0 →
        List.lookup name r = some f0)) := by
  obtain ⟨hreq, hr⟩ := environment_ok_eq task envSnap r hnd hok
  subst hr
  refine ⟨keys_map_pair _ _, ?_⟩
  intro name fb hmem
  have hlk := lookup_map_pair (fun p => resolveVar envSnap p) hnd hmem
  constructor
  · intro v hv
    rw [hlk]
    simp [resolveVar, hv]
  · intro hv f0 hf0
    rw [hlk]
    subst hf0
    simp [resolveVar, hv]

theorem environment_ok_exact_witness :
    (([("A", ""), ("B", "bv"), ("C", "x")] : List (String × String)).map
      Prod.fst = c2task.env.map Prod.fst) ∧
    List.lookup "A" ([("A", ""), ("B", "bv"), ("C", "x")] :
      List (String × String)) = some "" := by
  have h := environment_ok_exact c2task c2env
    [("A", ""), ("B", "bv"), ("C", "x")] (by decide) (by rfl)
  exact ⟨h.1, (h.2 "A" (some "fb") (by decide)).1 "" (by rfl)⟩

/-- C3: environment resolution fails exactly when some declared variable has
no fallback and no live value, and on failure the violation list is exactly
`requiredMissing` — every such missing name, not only the first one. -/
theorem environment_error_exact (task : Task)
    (envSnap : String → Option String) :
    ((∃ l, environment task envSnap = .error l) ↔
      ∃ p ∈ task.env, p.2 = none ∧ envSnap p.1 = none) ∧
    (∀ l, environment task envSnap = .error l →
      l = requiredMissing task envSnap ∧
      ∀ name, ((name, none) ∈ task.env ∧ envSnap name = none) → name ∈ l) := by
  have hne : requiredMissing task envSnap ≠ [] ↔
      ∃ p ∈ task.env, p.2 = none ∧ envSnap p.1 = none := by
    unfold requiredMissing
    rw [Ne, List.filterMap_eq_nil_iff]
    constructor
    · intro h
      rcases not_forall.mp h with ⟨p, hp⟩
      rcases Classical.not_imp.mp hp with ⟨hp1, hp2⟩
      refine ⟨p, hp1, ?_⟩
      obtain ⟨n, fb⟩ := p
      cases fb with
      | some d => exact absurd rfl hp2
      | none =>
        cases hv : envSnap n with
        | some w => exact absurd (by simp [missingPick, hv]) hp2
        | none => exact ⟨rfl, by simp [hv]⟩
    · rintro ⟨p, hp, h2, h3⟩ hall
      have := hall p hp
      obtain ⟨n, fb⟩ := p
      simp only at h2 h3
      subst h2
      rw [missingPick] at this
      rw [h3] at this
      simp at this
  constructor
  · constructor
    · rintro ⟨l, hl⟩
      exact hne.mp ((environment_error_iff task envSnap l).mp hl).1
    · intro h
      exact ⟨requiredMissing task envSnap,
        (environment_error_iff task envSnap _).mpr ⟨hne.mpr h, rfl⟩⟩
  · intro l hl
    obtain ⟨h1, h2⟩ := (environment_error_iff task envSnap l).mp hl
    subst h2
    refine ⟨rfl, ?_⟩
    intro name hn
    unfold requiredMissing
    exact List.mem_filterMap.mpr ⟨(name, none), hn.1,
      by simp [missingPick, hn.2]⟩

theorem environment_error_exact_witness :
    (∃ l, environment c3task c3env = .error l) ∧
    (["A", "C"] : List String) = requiredMissing c3task c3env ∧
    "C" ∈ (["A", "C"] : List String) := by
  have h := environment_error_exact c3task c3env
  refine ⟨h.1.mpr ⟨("A", none), by decide, rfl, rfl⟩, ?_, ?_⟩
  · exact (h.2 ["A", "C"] (by rfl)).1
  · exact (h.2 ["A", "C"] (by rfl)).2 "C" ⟨by decide, rfl⟩

/-- C4: a shorthand task entry (a bare string `s`) normalizes to the
canonical task with `command = some s`, no dependencies, `cache = true`, an
empty env, no paths, location `/scratch` and user `root` — that is, the
full-record form with every other field at its declared default. -/
theorem normalize_shorthand (s : String) :
    normalizeRawTask (.Short s) =
      { dependencies := [], cache := true, env := [], paths := [],
        location := "/scratch", user := "root", command := some s } ∧
    normalizeRawTask (.Short s) =
      { dependencies := [], cache := default_task_cache, env := [],
        paths := [], location := default_task_location,
        user := default_task_user, command := some s } :=
  ⟨rfl, rfl⟩

/-- C5: with unique task names, when the default names a nonexistent task and
violations exist, `check_dependencies` fails with the single combined
diagnostic naming the invalid default and enumerating `specViolations` —
every offending task with all of its missing dependency names; with only an
invalid default the diagnostic names only the default; with only dependency
violations it enumerates exactly `specViolations`. -/
theorem check_dependencies_messages (b : Bakefile)
    (hnd : (b.tasks.map Prod.fst).Nodup) :
    (∀ d, b.default = some d → containsKey b.tasks d = false →
      (specViolations b ≠ [] →
        check_dependencies b = .error ("The default task `" ++ d ++
          "` does not exist, and the following tasks have invalid dependencies: "
          ++ series ((specViolations b).map violationText) ++ ".")) ∧
      (specViolations b = [] →
        check_dependencies b = .error ("The default task `" ++ d ++
          "` does not exist."))) ∧
    (DefaultValid b → specViolations b ≠ [] →
      check_dependencies b =
        .error ("The following tasks have invalid dependencies: " ++
          series ((specViolations b).map violationText) ++ ".")) := by
  have hscan := scanViolations_eq_spec b hnd
  constructor
  · intro d hb hc
    constructor
    · intro hv
      have h := check_dependencies_err_both b d hb (by rw [hscan]; exact hv) hc
      rw [hscan] at h
      exact h
    · intro hv
      exact check_dependencies_err_default b d hb (by rw [hscan]; exact hv) hc
  · intro hdv hv
    have h := check_dependencies_err_deps b (by rw [hscan]; exact hv)
      ((defaultValidB_iff b).mpr hdv)
    rw [hscan] at h
    exact h

theorem check_dependencies_messages_witness :
    check_dependencies c5both = .error
      "The default task `nope` does not exist, and the following tasks have invalid dependencies: `t` (`x`)." ∧
    check_dependencies c5defaultOnly = .error
      "The default task `nope` does not exist." ∧
    check_dependencies c5depsOnly = .error
      "The following tasks have invalid dependencies: `t` (`x`)." := by
  refine ⟨?_, ?_, ?_⟩
  · exact ((check_dependencies_messages c5both (by decide)).1 "nope" rfl
      (by rfl)).1 (by decide)
  · exact ((check_dependencies_messages c5defaultOnly (by decide)).1 "nope" rfl
      (by rfl)).2 (by rfl)
  · exact (check_dependencies_messages c5depsOnly (by decide)).2
      (fun d hd => by cases hd) (by decide)

/-- C6: a document with a key outside the recognized field set at any record
position of the schema — the top level or a task record — fails to parse;
unknown fields are rejected, not ignored. -/
theorem parse_err_of_unknown_key (v : Value) (h : hasUnknownKey v = true) :
    ∃ e, parse v = .error e := by
  obtain ⟨e, he⟩ := rawBakefileDeserialize_err_of_unknown h
  exact ⟨e, by simp [parse, he]⟩

theorem parse_err_of_unknown_key_witness :
    hasUnknownKey c6doc = true ∧ ∃ e, parse c6doc = .error e :=
  ⟨by rfl, parse_err_of_unknown_key c6doc (by rfl)⟩

/-- C7 (amended): two invocations of `parse` on the same text see the same
raw model up to `HashMap` iteration order; parsing the same logical document
under any two iteration orders agrees on success versus failure, and two
successful results are equal field-for-field (Rust `==`, which ignores map
order).  The failure diagnostics, by contrast, may enumerate the offending
tasks in different orders (see the counterexample). -/
theorem parse_deterministic_up_to_order (raw1 raw2 : RawBakefile)
    (him : raw1.image = raw2.image) (hdf : raw1.default = raw2.default)
    (heq : hmEquiv raw1.tasks raw2.tasks = true)
    (hnd1 : (raw1.tasks.map Prod.fst).Nodup)
    (hnd2 : (raw2.tasks.map Prod.fst).Nodup) :
    ((∃ b, parseRaw raw1 = .ok b) ↔ (∃ b, parseRaw raw2 = .ok b)) ∧
    (∀ b1 b2, parseRaw raw1 = .ok b1 → parseRaw raw2 = .ok b2 →
      bakefileEquiv b1 b2 = true) := by
  have hndn1 : ((normalizeBakefile raw1).tasks.map Prod.fst).Nodup := by
    rw [keys_normalizeBakefile]
    exact hnd1
  have hndn2 : ((normalizeBakefile raw2).tasks.map Prod.fst).Nodup := by
    rw [keys_normalizeBakefile]
    exact hnd2
  have heqn : hmEquiv (normalizeBakefile raw1).tasks
      (normalizeBakefile raw2).tasks = true := by
    simp only [normalizeBakefile]
    exact hmEquiv_map_value normalizeRawTask heq
  have hdfn : (normalizeBakefile raw1).default =
      (normalizeBakefile raw2).default := by
    simp [normalizeBakefile, hdf]
  constructor
  · rw [parseRaw_ok_iff, parseRaw_ok_iff, check_dependencies_ok_iff,
      check_dependencies_ok_iff, scanViolations_eq_spec _ hndn1,
      scanViolations_eq_spec _ hndn2, specViolations_eq_nil_iff,
      specViolations_eq_nil_iff, defaultValidB_iff, defaultValidB_iff]
    constructor
    · rintro ⟨hdep, hdv⟩
      exact ⟨depsValid_congr heqn hdep, defaultValid_congr hdfn heqn hdv⟩
    · rintro ⟨hdep, hdv⟩
      exact ⟨depsValid_congr (hmEquiv_symm heqn) hdep,
        defaultValid_congr hdfn.symm (hmEquiv_symm heqn) hdv⟩
  · intro b1 b2 h1 h2
    rw [parseRaw_ok_elim h1, parseRaw_ok_elim h2]
    simp only [bakefileEquiv, Bool.and_eq_true]
    refine ⟨⟨?_, ?_⟩, heqn⟩
    · simp [normalizeBakefile, him]
    · simp [normalizeBakefile, hdf]

theorem parse_deterministic_up_to_order_witness :
    bakefileEquiv (normalizeBakefile c7ok1) (normalizeBakefile c7ok2)
      = true :=
  (parse_deterministic_up_to_order c7ok1 c7ok2 rfl rfl (by decide)
    (by decide) (by decide)).2
    (normalizeBakefile c7ok1) (normalizeBakefile c7ok2) (by rfl) (by rfl)

/-- C7 counterexample: the same logical document (equal image, default, and
tasks map) processed under two iteration orders yields two different
aggregated diagnostics, so the failure message of `parse` is not a function
of the document text alone. -/
theorem parse_deterministic_counterexample :
    c7raw1.image = c7raw2.image ∧ c7raw1.default = c7raw2.default ∧
    hmEquiv c7raw1.tasks c7raw2.tasks = true ∧
    parseRaw c7raw1 = .error
      "The following tasks have invalid dependencies: `t1` (`x`), `t2` (`x`)." ∧
    parseRaw c7raw2 = .error
      "The following tasks have invalid dependencies: `t2` (`x`), `t1` (`x`)." ∧
    ("The following tasks have invalid dependencies: `t1` (`x`), `t2` (`x`)."
      : String) ≠
      "The following tasks have invalid dependencies: `t2` (`x`), `t1` (`x`)." :=
  ⟨rfl, rfl, by decide, by rfl, by rfl, by decide⟩

/-- C8 (amended): when every dependency name of every task — duplicates and
self-references included — is a key of the tasks map, and the default task,
if present, also is, `parse` succeeds; duplicates and self-reference are
never by themselves a semantic error. -/
theorem parse_ok_of_references_valid (raw : RawBakefile)
    (hnd : (raw.tasks.map Prod.fst).Nodup)
    (hdep : DepsValid (normalizeBakefile raw))
    (hdv : DefaultValid (normalizeBakefile raw)) :
    ∃ b, parseRaw raw = .ok b := by
  have hndn : ((normalizeBakefile raw).tasks.map Prod.fst).Nodup := by
    rw [keys_normalizeBakefile]
    exact hnd
  rw [parseRaw_ok_iff, check_dependencies_ok_iff,
    scanViolations_eq_spec _ hndn, specViolations_eq_nil_iff,
    defaultValidB_iff]
  exact ⟨hdep, hdv⟩

theorem parse_ok_of_references_valid_witness :
    ∃ b, parseRaw c8ok = .ok b :=
  parse_ok_of_references_valid c8ok (by decide)
    ((depsValidB_iff _).mp (by rfl)) ((defaultValidB_iff _).mp (by rfl))

/-- C8 counterexample: in `c8raw` every dependency name resolves (the list
`[a, a]` is duplicated and self-referential, and `a` is a task), yet `parse`
fails, because the default names a nonexistent task — so resolving
dependencies alone does not make `parse` succeed. -/
theorem parse_ok_counterexample :
    depsValidB (normalizeBakefile c8raw) = true ∧
    parseRaw c8raw = .error "The default task `nope` does not exist." :=
  ⟨by rfl, by rfl⟩

/-- C9: with unique declared variable names, every name in the violation
list returned on failure is declared with a `none` fallback and absent from
the snapshot, and a variable declared with a fallback never appears in the
violation list. -/
theorem environment_violations_only_required (task : Task)
    (envSnap : String → Option String) (l : List String)
    (hnd : (task.env.map Prod.fst).Nodup)
    (herr : environment task envSnap = .error l) :
    (∀ name ∈ l, (name, none) ∈ task.env ∧ envSnap name = none) ∧
    (∀ name fb, (name, some fb) ∈ task.env → name ∉ l) := by
  obtain ⟨hne, hl⟩ := (environment_error_iff task envSnap l).mp herr
  subst hl
  have hmain : ∀ name ∈ requiredMissing task envSnap,
      (name, none) ∈ task.env ∧ envSnap name = none := by
    intro name hmem
    rcases List.mem_filterMap.mp hmem with ⟨p, hp, hpick⟩
    obtain ⟨n, fb⟩ := p
    cases fb with
    | some d => simp [missingPick] at hpick
    | none =>
      cases hv : envSnap n with
      | some w => simp [missingPick, hv] at hpick
      | none =>
        have hn : n = name := by simpa [missingPick, hv] using hpick
        subst hn
        exact ⟨hp, hv⟩
  refine ⟨hmain, ?_⟩
  intro name fb hmem hin
  obtain ⟨hmem2, _⟩ := hmain name hin
  have e1 : List.lookup name task.env = some (some fb) :=
    lookup_of_mem_nodup hnd hmem
  have e2 : List.lookup name task.env = some none :=
    lookup_of_mem_nodup hnd hmem2
  rw [e1] at e2
  simp at e2

theorem environment_violations_only_required_witness :
    ((("R", none) : String × Option String) ∈ c9task.env ∧
      c9env "R" = none) ∧
    "F" ∉ (["R"] : List String) := by
  have h := environment_violations_only_required c9task c9env ["R"]
    (by decide) (by rfl)
  exact ⟨h.1 "R" (by decide), h.2 "F" "fb" (by decide)⟩

/-- C10: a successful parse preserves the image verbatim, the default
verbatim, and the exact task-name keys of the raw document — normalization
renames, adds and removes no tasks. -/
theorem parse_preserves_image_default_keys (raw : RawBakefile) (b : Bakefile)
    (h : parseRaw raw = .ok b) :
    b.image = raw.image ∧ b.default = raw.default ∧
    b.tasks.map Prod.fst = raw.tasks.map Prod.fst := by
  rw [parseRaw_ok_elim h]
  exact ⟨rfl, rfl, keys_normalizeBakefile raw⟩

theorem parse_preserves_image_default_keys_witness :
    (normalizeBakefile c10raw).image = c10raw.image ∧
    (normalizeBakefile c10raw).default = c10raw.default ∧
    (normalizeBakefile c10raw).tasks.map Prod.fst =
      c10raw.tasks.map Prod.fst :=
  parse_preserves_image_default_keys c10raw (normalizeBakefile c10raw)
    (by rfl)

end Toast
